import Mathlib

/-
A verification model of the repair-order pipeline in
src/data-engineer/pipeline.py.

Modelling conventions (shallow embedding):
  * Timestamps are naturals (e.g. minutes since the epoch).  The
    date_time text of an event is represented by its parsed timestamp;
    pd.to_datetime is assumed total on extracted values, and the window
    width is a positive number of the same time unit.  Fixed calendar
    frequencies such as one hour or one day bucket a timestamp t to
    t - t % width, matching the resampling alignment of pandas for
    frequencies that divide a day.
  * Costs are numeric values modelled as integers; the float grammar of
    Python is abstracted to signed decimal integer strings (pyNumber?).
  * Raised Python exceptions become an Except error channel; the kind of
    exception is preserved in PyError because the handlers of the source
    discriminate on it.
  * pandas dataframe statefulness: window_by_datetime mutates its input
    frame in place (column conversion and set_index with inplace=True),
    so the model passes the frame state explicitly and returns the
    post-call state alongside the result; calling it again on the
    mutated frame raises KeyError, since set_index removed the column.
  * groupby with sort=True orders entity groups by key; resample and
    pd.Grouper sort a non-monotonic axis with a stable mergesort, fill
    every bin between the first and last observed bucket (empty bins
    yield all-NaN rows under .last()), and label bins by their left edge.
-/

/-- Python exception kinds distinguished by the source handlers. -/
inductive PyError where
  | fileNotFound (msg : String)
  | valueError (msg : String)
  | typeError (msg : String)
  | keyError (msg : String)
  | nameError (msg : String)
  | databaseError (msg : String)
deriving DecidableEq, Repr

/-- A validated event row, one entry of the dataframe built by parse_xml. -/
structure Event where
  order_id : String
  date_time : Nat
  status : String
  cost : Int
  technician : String
  parts : List (String × Int)
deriving DecidableEq, Repr

/-- One row of the resampled frame: date_time is the bucket start, the
remaining columns are NaN (none) for a bucket that holds no source event. -/
structure WRow where
  date_time : Nat
  order_id : Option String
  status : Option String
  cost : Option Int
  technician : Option String
  parts : Option (List (String × Int))
deriving DecidableEq, Repr

/-- Bucket start of timestamp t for window width w (floor alignment). -/
def bucket (w t : Nat) : Nat := t - t % w

/-- Insert an event into a time-sorted list, before the first element
whose timestamp is not smaller: a stable ascending insertion. -/
def insertByTime (e : Event) : List Event → List Event
  | [] => [e]
  | x :: xs => if x.date_time < e.date_time then x :: insertByTime e xs else e :: x :: xs

/-- Stable sort by timestamp: the internal mergesort pandas applies to a
non-monotonic datetime axis keeps input order among equal timestamps. -/
def sortByTime : List Event → List Event
  | [] => []
  | x :: xs => insertByTime x (sortByTime xs)

/-- Insert an order id into a sorted duplicate-free key list. -/
def insertKey (s : String) : List String → List String
  | [] => [s]
  | x :: xs => if x = s then x :: xs else if x < s then x :: insertKey s xs else s :: x :: xs

/-- The group keys of groupby on order_id: distinct ids in ascending order. -/
def entities (rows : List Event) : List String :=
  rows.foldl (fun acc e => insertKey e.order_id acc) []

/-- The sub-frame of one entity group, rows kept in input order. -/
def entityRows (rows : List Event) (n : String) : List Event :=
  rows.filter (fun e => e.order_id == n)

/-- Left edges of the resampling bins from lo to hi (both bucket starts). -/
def binRange (w lo hi : Nat) : List Nat :=
  (List.range ((hi - lo) / w + 1)).map (fun i => lo + i * w)

/-- The resampled row of a populated bucket: every column copied from the
chosen event. -/
def toSomeRow (b : Nat) (e : Event) : WRow :=
  ⟨b, some e.order_id, some e.status, some e.cost, some e.technician, some e.parts⟩

/-- The all-NaN row that resample().last() emits for an empty bucket. -/
def nullRow (b : Nat) : WRow := ⟨b, none, none, none, none, none⟩

/-- The .last() aggregation of one bucket of a time-sorted group: the last
row of the bucket in sorted order, or the all-NaN row when empty. -/
def binLast (w b : Nat) (sorted : List Event) : WRow :=
  match (sorted.filter (fun e => bucket w e.date_time == b)).getLast? with
  | some e => toSomeRow b e
  | none => nullRow b

/-- resample(window).last() over one entity group: one row per bin
between the bucket of the earliest and of the latest observed timestamp. -/
def resampleEntity (w : Nat) (l : List Event) : List WRow :=
  let sorted := sortByTime l
  match sorted.head?, sorted.getLast? with
  | some h, some z =>
      (binRange w (bucket w h.date_time) (bucket w z.date_time)).map
        (fun b => binLast w b sorted)
  | _, _ => []

/-- The frame named grouped in the source: the per-entity resampled rows
concatenated in entity-key order, the entity index level dropped. -/
def groupedRows (rows : List Event) (w : Nat) : List WRow :=
  (entities rows).flatMap (fun n => resampleEntity w (entityRows rows n))

/-- Minimum of a list of naturals. -/
def natMin? : List Nat → Option Nat
  | [] => none
  | x :: xs => some (xs.foldl Nat.min x)

/-- Maximum of a list of naturals. -/
def natMax? : List Nat → Option Nat
  | [] => none
  | x :: xs => some (xs.foldl Nat.max x)

/-- groupby(pd.Grouper(key=date_time, freq=window)) over the resampled
rows: every bin between the first and last bucket, each paired with the
rows whose bucket is that bin, in their stable-sorted order. -/
def regroup (w : Nat) (g : List WRow) : List (Nat × List WRow) :=
  match natMin? (g.map (·.date_time)), natMax? (g.map (·.date_time)) with
  | some lo, some hi =>
      (binRange w (bucket w lo) (bucket w hi)).map
        (fun b => (b, g.filter (fun r => bucket w r.date_time == b)))
  | _, _ => []

/-- The mutable state of the event dataframe: whether the date_time
column has been converted to datetime, whether it has been moved into
the index, and the event rows. -/
structure EventFrame where
  dateTimeParsed : Bool
  dateTimeIndexed : Bool
  rows : List Event
deriving DecidableEq, Repr

/-- window_by_datetime: converts and indexes the date_time column of the
input frame in place, resamples per entity, regroups by bucket, and
fails when the resulting dict is empty.  Returns the result together
with the post-call state of the input frame.  If date_time has already
been moved into the index, the column read on the right-hand side of
the first assignment raises KeyError before anything is written, so the
call fails with the frame unchanged. -/
def window_by_datetime (f : EventFrame) (w : Nat) :
    Except PyError (List (Nat × List WRow)) × EventFrame :=
  if f.dateTimeIndexed then
    (.error (.keyError "date_time"), f)
  else
    let f' : EventFrame := ⟨true, true, f.rows⟩
    let wd := regroup w (groupedRows f.rows w)
    (if wd.isEmpty then .error (.valueError "No data found for the specified window.")
     else .ok wd, f')

/-- The RO record class: a flat copy of one windowed row. -/
structure RO where
  order_id : Option String
  date_time : Nat
  status : Option String
  cost : Option Int
  technician : Option String
  parts : Option (List (String × Int))
deriving DecidableEq, Repr

/-- The RO constructor call: each field copied from the row. -/
def mkRO (r : WRow) : RO :=
  ⟨r.order_id, r.date_time, r.status, r.cost, r.technician, r.parts⟩

/-- process_to_RO: one RO per row of every window, in window order then
row order.  When no record was built the source raises a ValueError whose
message interpolates the loop variable window; if the input dict was
empty that variable was never bound and the interpolation itself raises
NameError instead. -/
def process_to_RO (data : List (Nat × List WRow)) : Except PyError (List RO) :=
  let records := (data.flatMap (·.2)).map mkRO
  if records.isEmpty then
    if data.isEmpty then
      .error (.nameError "name window is not defined")
    else
      .error (.valueError "No valid repair orders found for window")
  else .ok records

/-- One decimal digit of a numeric literal. -/
def digit? (c : Char) : Option Nat :=
  if c.isDigit then some (c.toNat - 48) else none

/-- Decimal accumulation over the remaining digits. -/
def digitsAux : List Char → Nat → Option Nat
  | [], acc => some acc
  | c :: cs, acc =>
    match digit? c with
    | some d => digitsAux cs (acc * 10 + d)
    | none => none

/-- All-digit strings as naturals, none otherwise. -/
def digits? : List Char → Option Nat
  | [] => none
  | cs => digitsAux cs 0

/-- The numeric-literal grammar shared by the float() and int() calls of
the source, abstracted to optionally signed decimal integer strings: a
successful parse is a number, anything else raises ValueError. -/
def pyNumber? (s : String) : Option Int :=
  match s.data with
  | '-' :: cs => (digits? cs).map (fun n => -(n : Int))
  | cs => (digits? cs).map (fun n => (n : Int))

/-- A part element inside repair_details/repair_parts: its two XML
attributes, absent when the attribute dictionary lacks the key. -/
structure PartNode where
  name : Option String
  quantity : Option String
deriving DecidableEq, Repr

/-- An event element as ElementTree exposes it to parse_xml.  For each
scalar child, the outer Option is the find result (none when the element
is missing, so .text raises AttributeError) and the inner Option is the
text (none for an empty element).  The date_time text is represented by
its parsed timestamp, the empty text by the inner none. -/
structure EventNode where
  order_id : Option (Option String)
  date_time : Option (Option Nat)
  status : Option (Option String)
  cost : Option (Option String)
  technician : Option (Option String)
  parts : List PartNode
deriving DecidableEq, Repr

/-- Outcome of processing one event node: a validated Event, a skip (an
AttributeError or ValueError caught by the per-event handler, logged,
processing continues), or an uncaught exception that propagates. -/
inductive EvResult where
  | ok (e : Event)
  | skip (msg : String)
  | abort (err : PyError)
deriving DecidableEq, Repr

/-- The part-list comprehension: attrib[name] then attrib[quantity]
raise KeyError when absent (not caught by the per-event handler);
int() on a non-numeric quantity raises ValueError (caught). -/
def extractParts : List PartNode → Except EvResult (List (String × Int))
  | [] => .ok []
  | p :: ps =>
    match p.name with
    | none => .error (.abort (.keyError "name"))
    | some nm =>
      match p.quantity with
      | none => .error (.abort (.keyError "quantity"))
      | some qs =>
        match pyNumber? qs with
        | none => .error (.skip "ValueError: invalid literal for int")
        | some q => (extractParts ps).map (fun l => (nm, q) :: l)

/-- Processing of one event node, field reads in source order:
a missing element raises AttributeError (caught, skip); float() on the
None text of an empty cost element raises TypeError (not caught, aborts
the batch); a non-numeric cost raises ValueError (caught, skip); then
the part list is built; finally the truthiness validation raises
ValueError (caught, skip) when a required scalar is None or empty. -/
def extractEvent (n : EventNode) : EvResult :=
  match n.order_id with
  | none => .skip "AttributeError"
  | some orderIdText =>
  match n.date_time with
  | none => .skip "AttributeError"
  | some dateTimeText =>
  match n.status with
  | none => .skip "AttributeError"
  | some statusText =>
  match n.cost with
  | none => .skip "AttributeError"
  | some costText =>
  match costText with
  | none => .abort (.typeError "float argument must be a string or a real number, not NoneType")
  | some costStr =>
  match pyNumber? costStr with
  | none => .skip "ValueError: could not convert string to float"
  | some cost =>
  match n.technician with
  | none => .skip "AttributeError"
  | some technicianText =>
  match extractParts n.parts with
  | .error r => r
  | .ok parts =>
  match orderIdText, dateTimeText, statusText, technicianText with
  | some oid, some dt, some st, some te =>
      if oid.isEmpty || st.isEmpty || te.isEmpty then
        .skip "ValueError: Missing required fields in event."
      else .ok ⟨oid, dt, st, cost, te, parts⟩
  | _, _, _, _ => .skip "ValueError: Missing required fields in event."

/-- One XML file as parse_xml sees it: either ET.fromstring raised
ParseError (the file is skipped), or the list of event nodes root.iter
yields in document order. -/
inductive Document where
  | malformed
  | parsed (events : List EventNode)
deriving DecidableEq, Repr

/-- The inner event loop of parse_xml over one node list: ok events are
appended, skips continue, an uncaught exception aborts. -/
def collectEvents : List EventNode → Except PyError (List Event)
  | [] => .ok []
  | n :: ns =>
    match extractEvent n with
    | .ok e => (collectEvents ns).map (fun l => e :: l)
    | .skip _ => collectEvents ns
    | .abort err => .error err

/-- The outer file loop of parse_xml: malformed files are skipped,
event lists are processed in file order. -/
def collectDocs : List Document → Except PyError (List Event)
  | [] => .ok []
  | .malformed :: ds => collectDocs ds
  | .parsed evs :: ds =>
    match collectEvents evs with
    | .error err => .error err
    | .ok l =>
      match collectDocs ds with
      | .error err => .error err
      | .ok r => .ok (l ++ r)

/-- parse_xml: the two loops, then the batch-level emptiness check. -/
def parse_xml (files : List Document) : Except PyError (List Event) :=
  match collectDocs files with
  | .error err => .error err
  | .ok [] => .error (.valueError "No valid event data found in XML files.")
  | .ok data => .ok data

/-- What a run of the pipeline function does observably: it always
returns normally; either the full stage chain succeeded and the records
were written to the sink, or some exception was caught by one of the
top-level handlers and only logged. -/
inductive PipelineResult where
  | completed (ros : List RO)
  | loggedError (e : PyError)
deriving DecidableEq, Repr

/-- The pipeline function.  The directory read is abstracted to the list
of documents found (read_files_from_dir raises FileNotFoundError when it
finds no XML file) and the sqlite sink to a flag saying whether the
write succeeds.  Every raise of a stage lands in one of the top-level
except handlers, which log and fall through: the caller always gets a
normal return. -/
def pipeline (files : List Document) (w : Nat) (dbOk : Bool) : PipelineResult :=
  if files.isEmpty then
    .loggedError (.fileNotFound "No XML files found in the directory.")
  else
    match parse_xml files with
    | .error e => .loggedError e
    | .ok events =>
      if events.isEmpty then
        .loggedError (.valueError "Parsed data is empty. No valid events found in XML files.")
      else
        match (window_by_datetime ⟨false, false, events⟩ w).1 with
        | .error e => .loggedError e
        | .ok wd =>
          if wd.isEmpty then
            .loggedError (.valueError "No data found for the specified window.")
          else
            match process_to_RO wd with
            | .error e => .loggedError e
            | .ok ros =>
              if ros.isEmpty then
                .loggedError (.valueError "No valid repair orders found after processing.")
              else if dbOk then .completed ros
              else .loggedError (.databaseError "database error")

/-- The input events of entity n whose timestamp falls in bucket b, in
input order: the events competing to be that bucket's windowed row. -/
def bucketEvents (rows : List Event) (w : Nat) (n : String) (b : Nat) : List Event :=
  rows.filter (fun e => (bucket w e.date_time == b) && (e.order_id == n))

/-- The windowed row of entity n under bucket key b in the output
mapping: the row of the group stored under b whose order_id is n. -/
def rowFor (m : List (Nat × List WRow)) (n : String) (b : Nat) : Option WRow :=
  match m.lookup b with
  | some g => g.find? (fun r => r.order_id == some n)
  | none => none

/-- The Event a node yields when it is valid, none when it is skipped
or aborts. -/
def okEvent? (n : EventNode) : Option Event :=
  match extractEvent n with
  | .ok e => some e
  | _ => none

/-- Stated from the specification wording of the order-preservation
claim: the valid events of every document, documents in supply order,
nodes in traversal order.  Compared against parse_xml below. -/
def specOrderedEvents (files : List Document) : List Event :=
  files.flatMap (fun d =>
    match d with
    | .malformed => []
    | .parsed evs => evs.filterMap okEvent?)

/- Helper lemmas about the sorting and bucketing primitives. -/

theorem getLast?_mem' {α : Type} : ∀ {l : List α} {a : α}, l.getLast? = some a → a ∈ l
  | [x], a, h => by
      simp [List.getLast?] at h
      simp [h]
  | x :: y :: t, a, h => by
      rw [List.getLast?_cons_cons] at h
      exact List.mem_cons_of_mem x (getLast?_mem' h)

theorem getLast?_cons_ne_nil {α : Type} {t : List α} (x : α) (h : t ≠ []) :
    (x :: t).getLast? = t.getLast? := by
  cases t with
  | nil => exact absurd rfl h
  | cons y s => exact List.getLast?_cons_cons

theorem insertByTime_ne_nil (e : Event) (l : List Event) : insertByTime e l ≠ [] := by
  cases l with
  | nil => simp [insertByTime]
  | cons x xs =>
      unfold insertByTime
      split <;> simp

theorem mem_insertByTime {a e : Event} : ∀ {l : List Event},
    a ∈ insertByTime e l ↔ a = e ∨ a ∈ l
  | [] => by simp [insertByTime]
  | x :: xs => by
      unfold insertByTime
      split
      · rw [List.mem_cons, mem_insertByTime (l := xs), List.mem_cons]
        tauto
      · rw [List.mem_cons]

theorem mem_sortByTime {a : Event} : ∀ {l : List Event}, a ∈ sortByTime l ↔ a ∈ l
  | [] => Iff.rfl
  | x :: xs => by
      unfold sortByTime
      rw [mem_insertByTime, mem_sortByTime (l := xs)]
      simp

/-- Ascending-by-timestamp ordering of an event list. -/
def TimeSorted (l : List Event) : Prop :=
  l.Pairwise (fun a b => a.date_time ≤ b.date_time)

theorem timeSorted_insertByTime {e : Event} : ∀ {l : List Event},
    TimeSorted l → TimeSorted (insertByTime e l)
  | [], _ => List.pairwise_singleton _ _
  | x :: xs, h => by
      obtain ⟨hx, hxs⟩ := List.pairwise_cons.mp h
      unfold insertByTime
      split
      · rename_i hlt
        refine List.pairwise_cons.mpr ⟨?_, timeSorted_insertByTime hxs⟩
        intro b hb
        rcases mem_insertByTime.mp hb with rfl | hb
        · exact Nat.le_of_lt hlt
        · exact hx b hb
      · rename_i hge
        refine List.pairwise_cons.mpr ⟨?_, h⟩
        intro b hb
        rcases List.mem_cons.mp hb with rfl | hb
        · exact Nat.le_of_not_lt hge
        · exact Nat.le_trans (Nat.le_of_not_lt hge) (hx b hb)

theorem timeSorted_sortByTime : ∀ (l : List Event), TimeSorted (sortByTime l)
  | [] => List.Pairwise.nil
  | x :: xs => timeSorted_insertByTime (timeSorted_sortByTime xs)

theorem insertByTime_cons_lt {e x : Event} {l : List Event} (h : x.date_time < e.date_time) :
    insertByTime e (x :: l) = x :: insertByTime e l := by
  simp only [insertByTime]; rw [if_pos h]

theorem insertByTime_cons_ge {e x : Event} {l : List Event} (h : ¬ x.date_time < e.date_time) :
    insertByTime e (x :: l) = e :: x :: l := by
  simp only [insertByTime]; rw [if_neg h]

theorem filter_insertByTime (p : Event → Bool) {e : Event} : ∀ {l : List Event},
    TimeSorted l →
    (insertByTime e l).filter p =
      if p e then insertByTime e (l.filter p) else l.filter p
  | [], _ => by
      simp only [insertByTime, List.filter_nil, List.filter]
      split <;> simp_all [insertByTime]
  | x :: xs, h => by
      obtain ⟨hx, hxs⟩ := List.pairwise_cons.mp h
      by_cases hlt : x.date_time < e.date_time
      · rw [insertByTime_cons_lt hlt]
        by_cases hpx : p x
        · simp only [List.filter_cons, hpx, if_true, filter_insertByTime p hxs]
          by_cases hpe : p e
          · simp only [hpe, if_true, insertByTime_cons_lt hlt]
          · simp [hpe]
        · simp only [List.filter_cons, hpx, Bool.false_eq_true, if_false,
            filter_insertByTime p hxs]
      · rw [insertByTime_cons_ge hlt]
        by_cases hpe : p e
        · simp only [List.filter_cons, hpe, if_true]
          by_cases hpx : p x
          · simp only [hpx, if_true, insertByTime_cons_ge hlt]
          · simp only [hpx, Bool.false_eq_true, if_false]
            cases hfx : xs.filter p with
            | nil => simp [insertByTime]
            | cons y ys =>
                have hy : y ∈ xs.filter p := by rw [hfx]; exact List.mem_cons_self y ys
                have hyx : x.date_time ≤ y.date_time := hx y (List.mem_filter.mp hy).1
                have hny : ¬ y.date_time < e.date_time :=
                  Nat.not_lt.mpr (Nat.le_trans (Nat.le_of_not_lt hlt) hyx)
                rw [insertByTime_cons_ge hny]
        · simp [List.filter_cons, hpe]

theorem filter_sortByTime (p : Event → Bool) : ∀ (l : List Event),
    (sortByTime l).filter p = sortByTime (l.filter p)
  | [] => rfl
  | x :: xs => by
      show (insertByTime x (sortByTime xs)).filter p = sortByTime ((x :: xs).filter p)
      rw [filter_insertByTime p (timeSorted_sortByTime xs), filter_sortByTime p xs,
        List.filter_cons]
      by_cases hpx : p x
      · simp only [hpx, if_true]
        rfl
      · simp only [hpx, Bool.false_eq_true, if_false]

theorem getLast?_insertByTime {e z : Event} : ∀ {l : List Event},
    l.getLast? = some z → e.date_time ≤ z.date_time →
    (insertByTime e l).getLast? = some z
  | [], h, _ => by simp at h
  | [x], h, hle => by
      simp only [List.getLast?_singleton, Option.some.injEq] at h
      subst h
      by_cases hlt : x.date_time < e.date_time
      · exact absurd (Nat.lt_of_le_of_lt hle hlt) (Nat.lt_irrefl _)
      · rw [insertByTime_cons_ge hlt]
        rfl
  | x :: y :: t, h, hle => by
      rw [List.getLast?_cons_cons] at h
      by_cases hlt : x.date_time < e.date_time
      · rw [insertByTime_cons_lt hlt,
          getLast?_cons_ne_nil x (insertByTime_ne_nil e (y :: t))]
        exact getLast?_insertByTime h hle
      · rw [insertByTime_cons_ge hlt, getLast?_cons_ne_nil e (by simp),
          List.getLast?_cons_cons]
        exact h

theorem getLast?_sortByTime {z : Event} : ∀ {l : List Event},
    l.getLast? = some z → (∀ x ∈ l, x.date_time ≤ z.date_time) →
    (sortByTime l).getLast? = some z
  | [], h, _ => by simp at h
  | [x], h, _ => by
      simp only [List.getLast?_singleton, Option.some.injEq] at h
      subst h
      rfl
  | x :: y :: t, h, hmax => by
      rw [List.getLast?_cons_cons] at h
      show (insertByTime x (sortByTime (y :: t))).getLast? = some z
      exact getLast?_insertByTime
        (getLast?_sortByTime h (fun a ha => hmax a (List.mem_cons_of_mem x ha)))
        (hmax x (List.mem_cons_self x (y :: t)))

theorem getLast?_insertByTime_of_lt {e : Event} : ∀ {l : List Event},
    (∀ y ∈ l, y.date_time < e.date_time) → (insertByTime e l).getLast? = some e
  | [], _ => rfl
  | y :: ys, h => by
      rw [insertByTime_cons_lt (h y (List.mem_cons_self y ys)),
        getLast?_cons_ne_nil y (insertByTime_ne_nil e ys)]
      exact getLast?_insertByTime_of_lt (fun a ha => h a (List.mem_cons_of_mem y ha))

/-- The last element of the stable sort is the event appearing last in
input order among those tied at the maximal timestamp: stability keeps
the relative order of the tied events, and everything strictly earlier
sorts before them. -/
theorem getLast?_sortByTime_ties {t : Nat} {z : Event} : ∀ {l : List Event},
    (l.filter (fun x => x.date_time == t)).getLast? = some z →
    (∀ x ∈ l, x.date_time ≤ t) →
    (sortByTime l).getLast? = some z
  | [], h, _ => by simp at h
  | x :: xs, h, hmax => by
      have hzt : z.date_time = t :=
        beq_iff_eq.mp (List.mem_filter.mp (getLast?_mem' h)).2
      rw [List.filter_cons] at h
      show (insertByTime x (sortByTime xs)).getLast? = some z
      by_cases hxt : (x.date_time == t) = true
      · rw [if_pos hxt] at h
        cases hfx : xs.filter (fun x => x.date_time == t) with
        | nil =>
            rw [hfx] at h
            simp only [List.getLast?_singleton, Option.some.injEq] at h
            subst h
            refine getLast?_insertByTime_of_lt ?_
            intro y hy
            have hyxs := mem_sortByTime.mp hy
            have hyne : y.date_time ≠ t := by
              intro hc
              have hymem : y ∈ xs.filter (fun x => x.date_time == t) :=
                List.mem_filter.mpr ⟨hyxs, beq_iff_eq.mpr hc⟩
              rw [hfx] at hymem
              simp at hymem
            have hyle := hmax y (List.mem_cons_of_mem x hyxs)
            rw [beq_iff_eq.mp hxt]
            omega
        | cons fe fs =>
            rw [hfx, getLast?_cons_ne_nil x (by simp), ← hfx] at h
            refine getLast?_insertByTime
              (getLast?_sortByTime_ties h
                (fun a ha => hmax a (List.mem_cons_of_mem x ha))) ?_
            rw [hzt]
            exact Nat.le_of_eq (beq_iff_eq.mp hxt)
      · rw [if_neg hxt] at h
        refine getLast?_insertByTime
          (getLast?_sortByTime_ties h
            (fun a ha => hmax a (List.mem_cons_of_mem x ha))) ?_
        rw [hzt]
        exact hmax x (List.mem_cons_self x xs)

theorem timeSorted_head_le {h0 : Event} {l : List Event}
    (hs : TimeSorted l) (hh : l.head? = some h0) :
    ∀ x ∈ l, h0.date_time ≤ x.date_time := by
  cases l with
  | nil => simp at hh
  | cons a t =>
      simp only [List.head?_cons, Option.some.injEq] at hh
      subst hh
      intro x hx
      rcases List.mem_cons.mp hx with rfl | hx
      · exact Nat.le_refl _
      · exact (List.pairwise_cons.mp hs).1 x hx

theorem timeSorted_getLast_ge {z : Event} : ∀ {l : List Event},
    TimeSorted l → l.getLast? = some z →
    ∀ x ∈ l, x.date_time ≤ z.date_time
  | [], _, h => by simp at h
  | [a], _, h => by
      simp only [List.getLast?_singleton, Option.some.injEq] at h
      subst h
      intro x hx
      rcases List.mem_cons.mp hx with rfl | hx
      · exact Nat.le_refl _
      · simp at hx
  | a :: b :: t, hs, h => by
      rw [List.getLast?_cons_cons] at h
      intro x hx
      have hz : z ∈ b :: t := getLast?_mem' h
      rcases List.mem_cons.mp hx with rfl | hx
      · exact (List.pairwise_cons.mp hs).1 z hz
      · exact timeSorted_getLast_ge (List.pairwise_cons.mp hs).2 h x hx

/-- Sorting leaves the earliest timestamp at the head and the latest at
the end; combined with the lemmas above, the head of the sorted group is
a minimiser and the last element a maximiser of the timestamps. -/
theorem sortByTime_head_min {h0 : Event} {l : List Event}
    (hh : (sortByTime l).head? = some h0) :
    ∀ x ∈ l, h0.date_time ≤ x.date_time := by
  intro x hx
  exact timeSorted_head_le (timeSorted_sortByTime l) hh x (mem_sortByTime.mpr hx)

theorem sortByTime_getLast_max {z : Event} {l : List Event}
    (hz : (sortByTime l).getLast? = some z) :
    ∀ x ∈ l, x.date_time ≤ z.date_time := by
  intro x hx
  exact timeSorted_getLast_ge (timeSorted_sortByTime l) hz x (mem_sortByTime.mpr hx)

theorem bucket_eq_mul_div (w t : Nat) : bucket w t = w * (t / w) := by
  have := Nat.div_add_mod t w
  unfold bucket
  omega

theorem bucket_mod (w t : Nat) : bucket w t % w = 0 := by
  rw [bucket_eq_mul_div]
  exact Nat.mul_mod_right w (t / w)

theorem bucket_eq_of_mod {w t : Nat} (h : t % w = 0) : bucket w t = t := by
  unfold bucket
  omega

theorem bucket_mono (w : Nat) {t1 t2 : Nat} (h : t1 ≤ t2) :
    bucket w t1 ≤ bucket w t2 := by
  rw [bucket_eq_mul_div, bucket_eq_mul_div]
  exact Nat.mul_le_mul_left w (Nat.div_le_div_right h)

theorem mem_binRange {w lo hi b : Nat} (hw : 0 < w) (hlo : lo % w = 0)
    (hb : b % w = 0) (h1 : lo ≤ b) (h2 : b ≤ hi) : b ∈ binRange w lo hi := by
  obtain ⟨k, hk⟩ : w ∣ (b - lo) :=
    Nat.dvd_sub' (Nat.dvd_of_mod_eq_zero hb) (Nat.dvd_of_mod_eq_zero hlo)
  have hkle : k ≤ (hi - lo) / w := by
    calc k = (w * k) / w := (Nat.mul_div_cancel_left k hw).symm
    _ = (b - lo) / w := by rw [hk]
    _ ≤ (hi - lo) / w := Nat.div_le_div_right (by omega)
  refine List.mem_map.mpr ⟨k, List.mem_range.mpr (Nat.lt_succ_of_le hkle), ?_⟩
  rw [Nat.mul_comm] at hk
  omega

theorem of_mem_binRange {w lo hi b : Nat} (h : b ∈ binRange w lo hi)
    (hlo : lo % w = 0) : b % w = 0 ∧ lo ≤ b := by
  obtain ⟨i, _, rfl⟩ := List.mem_map.mp h
  constructor
  · rw [Nat.add_mul_mod_self_right, hlo]
  · exact Nat.le_add_right lo (i * w)

theorem binRange_head_mem (w lo hi : Nat) : lo ∈ binRange w lo hi := by
  refine List.mem_map.mpr ⟨0, List.mem_range.mpr (Nat.succ_pos _), by omega⟩

theorem natMinChoice (a b : Nat) : Nat.min a b = a ∨ Nat.min a b = b := min_choice a b

theorem natMaxChoice (a b : Nat) : Nat.max a b = a ∨ Nat.max a b = b := max_choice a b

theorem natMin?_spec : ∀ {l : List Nat} {v : Nat}, natMin? l = some v →
    v ∈ l ∧ ∀ x ∈ l, v ≤ x := by
  have key : ∀ (xs : List Nat) (a : Nat),
      (xs.foldl Nat.min a = a ∨ xs.foldl Nat.min a ∈ xs) ∧
      xs.foldl Nat.min a ≤ a ∧ ∀ x ∈ xs, xs.foldl Nat.min a ≤ x := by
    intro xs
    induction xs with
    | nil => intro a; exact ⟨Or.inl rfl, Nat.le_refl a, by simp⟩
    | cons y ys ih =>
        intro a
        have h := ih (Nat.min a y)
        refine ⟨?_, ?_, ?_⟩
        · rcases h.1 with heq | hmem
          · rw [List.foldl_cons, heq]
            rcases natMinChoice a y with hc | hc <;> rw [hc]
            · exact Or.inl rfl
            · exact Or.inr (List.mem_cons_self y ys)
          · exact Or.inr (List.mem_cons_of_mem y hmem)
        · exact Nat.le_trans h.2.1 (Nat.min_le_left a y)
        · intro x hx
          rcases List.mem_cons.mp hx with rfl | hx
          · exact Nat.le_trans h.2.1 (Nat.min_le_right a x)
          · exact h.2.2 x hx
  intro l v h
  cases l with
  | nil => simp [natMin?] at h
  | cons x xs =>
      simp only [natMin?, Option.some.injEq] at h
      subst h
      obtain ⟨hm, hle, hall⟩ := key xs x
      refine ⟨?_, ?_⟩
      · rcases hm with heq | hmem
        · rw [heq]; exact List.mem_cons_self x xs
        · exact List.mem_cons_of_mem x hmem
      · intro y hy
        rcases List.mem_cons.mp hy with rfl | hy
        · exact hle
        · exact hall y hy

theorem natMax?_spec : ∀ {l : List Nat} {v : Nat}, natMax? l = some v →
    v ∈ l ∧ ∀ x ∈ l, x ≤ v := by
  have key : ∀ (xs : List Nat) (a : Nat),
      (xs.foldl Nat.max a = a ∨ xs.foldl Nat.max a ∈ xs) ∧
      a ≤ xs.foldl Nat.max a ∧ ∀ x ∈ xs, x ≤ xs.foldl Nat.max a := by
    intro xs
    induction xs with
    | nil => intro a; exact ⟨Or.inl rfl, Nat.le_refl a, by simp⟩
    | cons y ys ih =>
        intro a
        have h := ih (Nat.max a y)
        refine ⟨?_, ?_, ?_⟩
        · rcases h.1 with heq | hmem
          · rw [List.foldl_cons, heq]
            rcases natMaxChoice a y with hc | hc <;> rw [hc]
            · exact Or.inl rfl
            · exact Or.inr (List.mem_cons_self y ys)
          · exact Or.inr (List.mem_cons_of_mem y hmem)
        · exact Nat.le_trans (Nat.le_max_left a y) h.2.1
        · intro x hx
          rcases List.mem_cons.mp hx with rfl | hx
          · exact Nat.le_trans (Nat.le_max_right a x) h.2.1
          · exact h.2.2 x hx
  intro l v h
  cases l with
  | nil => simp [natMax?] at h
  | cons x xs =>
      simp only [natMax?, Option.some.injEq] at h
      subst h
      obtain ⟨hm, hle, hall⟩ := key xs x
      refine ⟨?_, ?_⟩
      · rcases hm with heq | hmem
        · rw [heq]; exact List.mem_cons_self x xs
        · exact List.mem_cons_of_mem x hmem
      · intro y hy
        rcases List.mem_cons.mp hy with rfl | hy
        · exact hle
        · exact hall y hy

theorem binLast_date_time (w b : Nat) (s : List Event) :
    (binLast w b s).date_time = b := by
  unfold binLast
  split <;> rfl

theorem binLast_order_id_some {w b : Nat} {s : List Event} {n : String}
    (h : (binLast w b s).order_id = some n) :
    ∃ e ∈ s, bucket w e.date_time = b ∧ e.order_id = n ∧ binLast w b s = toSomeRow b e := by
  rcases hg : (s.filter (fun e => bucket w e.date_time == b)).getLast? with _ | e
  · rw [binLast, hg] at h
    simp [nullRow] at h
  · rw [binLast, hg] at h
    have he := List.mem_filter.mp (getLast?_mem' hg)
    simp only [toSomeRow, Option.some.injEq] at h
    refine ⟨e, he.1, beq_iff_eq.mp he.2, h, ?_⟩
    rw [binLast, hg]

theorem mem_resampleEntity {w : Nat} {l : List Event} {r : WRow}
    (h : r ∈ resampleEntity w l) :
    r.date_time % w = 0 ∧ r = binLast w r.date_time (sortByTime l) := by
  simp only [resampleEntity] at h
  rcases hh : (sortByTime l).head? with _ | h0 <;> rw [hh] at h
  · simp at h
  · rcases hz : (sortByTime l).getLast? with _ | z <;> rw [hz] at h
    · simp at h
    · obtain ⟨b, hb, rfl⟩ := List.mem_map.mp h
      have hmod := (of_mem_binRange hb (bucket_mod w h0.date_time)).1
      rw [binLast_date_time]
      exact ⟨hmod, rfl⟩

theorem mem_groupedRows {rows : List Event} {w : Nat} {r : WRow}
    (h : r ∈ groupedRows rows w) :
    ∃ n, n ∈ entities rows ∧ r ∈ resampleEntity w (entityRows rows n) := by
  obtain ⟨n, hn, hr⟩ := List.mem_flatMap.mp h
  exact ⟨n, hn, hr⟩

theorem groupedRows_mod {rows : List Event} {w : Nat} {r : WRow}
    (h : r ∈ groupedRows rows w) : r.date_time % w = 0 := by
  obtain ⟨n, _, hr⟩ := mem_groupedRows h
  exact (mem_resampleEntity hr).1

theorem mem_entityRows {rows : List Event} {n : String} {e : Event} :
    e ∈ entityRows rows n ↔ e ∈ rows ∧ e.order_id = n := by
  unfold entityRows
  rw [List.mem_filter]
  simp [beq_iff_eq]

theorem mem_insertKey {a s : String} : ∀ {l : List String},
    a ∈ insertKey s l ↔ a = s ∨ a ∈ l
  | [] => by simp [insertKey]
  | x :: xs => by
      unfold insertKey
      split
      · rename_i hxs
        subst hxs
        simp only [List.mem_cons]
        tauto
      · split
        · rw [List.mem_cons, mem_insertKey (l := xs), List.mem_cons]
          tauto
        · rw [List.mem_cons]

theorem mem_entities {rows : List Event} {e : Event} (h : e ∈ rows) :
    e.order_id ∈ entities rows := by
  have key : ∀ (l : List Event) (acc : List String) (a : String),
      (a ∈ acc ∨ ∃ x ∈ l, x.order_id = a) →
      a ∈ l.foldl (fun acc e => insertKey e.order_id acc) acc := by
    intro l
    induction l with
    | nil =>
        intro acc a ha
        rcases ha with ha | ⟨x, hx, _⟩
        · exact ha
        · simp at hx
    | cons y ys ih =>
        intro acc a ha
        rw [List.foldl_cons]
        refine ih (insertKey y.order_id acc) a ?_
        rcases ha with ha | ⟨x, hx, hxa⟩
        · exact Or.inl (mem_insertKey.mpr (Or.inr ha))
        · rcases List.mem_cons.mp hx with rfl | hx
          · exact Or.inl (mem_insertKey.mpr (Or.inl hxa.symm))
          · exact Or.inr ⟨x, hx, hxa⟩
  exact key rows [] e.order_id (Or.inr ⟨e, h, rfl⟩)

theorem lookup_keyed_map {β : Type} (f : Nat → β) {ks : List Nat} {b : Nat}
    (h : b ∈ ks) : (ks.map (fun k => (k, f k))).lookup b = some (f b) := by
  induction ks with
  | nil => simp at h
  | cons k ks ih =>
      rcases List.mem_cons.mp h with rfl | hmem
      · simp [List.lookup]
      · simp only [List.map_cons, List.lookup]
        cases hbk : b == k with
        | true => rw [beq_iff_eq.mp hbk]
        | false => exact ih hmem

theorem find?_unique {α : Type} {p : α → Bool} {x : α} : ∀ {l : List α},
    x ∈ l → p x = true → (∀ y ∈ l, p y = true → y = x) → l.find? p = some x
  | [], h, _, _ => by simp at h
  | a :: t, h, hp, huniq => by
      by_cases hpa : p a
      · rw [List.find?_cons_of_pos _ hpa]
        rw [huniq a (List.mem_cons_self a t) hpa]
      · rw [List.find?_cons_of_neg _ hpa]
        have hxt : x ∈ t := by
          rcases List.mem_cons.mp h with rfl | hxt
          · exact absurd hp hpa
          · exact hxt
        exact find?_unique hxt hp (fun y hy => huniq y (List.mem_cons_of_mem a hy))

theorem window_ok {f : EventFrame} {w : Nat} {m : List (Nat × List WRow)}
    (h : (window_by_datetime f w).1 = .ok m) :
    m = regroup w (groupedRows f.rows w) ∧ m ≠ [] := by
  unfold window_by_datetime at h
  by_cases hidx : f.dateTimeIndexed
  · simp [hidx] at h
  · simp only [hidx, Bool.false_eq_true, if_false] at h
    by_cases he : (regroup w (groupedRows f.rows w)).isEmpty
    · simp [he] at h
    · simp only [he, Bool.false_eq_true, if_false, Except.ok.injEq] at h
      subst h
      exact ⟨rfl, by simpa using he⟩

theorem mem_regroup_eq {w : Nat} {g : List WRow} {b : Nat} {gr : List WRow}
    (h : (b, gr) ∈ regroup w g) :
    gr = g.filter (fun r => bucket w r.date_time == b) := by
  unfold regroup at h
  rcases hmin : natMin? (g.map (·.date_time)) with _ | lo <;> rw [hmin] at h
  · simp at h
  · rcases hmax : natMax? (g.map (·.date_time)) with _ | hi <;> rw [hmax] at h
    · simp at h
    · obtain ⟨b', _, hpair⟩ := List.mem_map.mp h
      have h1 : b' = b := congrArg Prod.fst hpair
      have h2 : (g.filter fun r => bucket w r.date_time == b') = gr :=
        congrArg Prod.snd hpair
      subst h1
      exact h2.symm

theorem resample_mem_of_bucket {w : Nat} {l : List Event} {e : Event} (hw : 0 < w)
    (he : e ∈ l) :
    binLast w (bucket w e.date_time) (sortByTime l) ∈ resampleEntity w l := by
  have hmem : e ∈ sortByTime l := mem_sortByTime.mpr he
  obtain ⟨h0, hh⟩ : ∃ h0, (sortByTime l).head? = some h0 := by
    cases hs : sortByTime l with
    | nil => rw [hs] at hmem; simp at hmem
    | cons a t => exact ⟨a, rfl⟩
  obtain ⟨z, hz⟩ : ∃ z, (sortByTime l).getLast? = some z := by
    cases hs : sortByTime l with
    | nil => rw [hs] at hmem; simp at hmem
    | cons a t => exact ⟨(a :: t).getLast (by simp), List.getLast?_eq_getLast _ _⟩
  simp only [resampleEntity]
  rw [hh, hz]
  refine List.mem_map.mpr ⟨bucket w e.date_time, ?_, rfl⟩
  exact mem_binRange hw (bucket_mod w h0.date_time) (bucket_mod w e.date_time)
    (bucket_mono w (sortByTime_head_min hh e he))
    (bucket_mono w (sortByTime_getLast_max hz e he))

theorem regroup_eq_of_ne_nil {w : Nat} {g : List WRow} (hg : g ≠ []) :
    ∃ lo hi, natMin? (g.map (·.date_time)) = some lo ∧
      natMax? (g.map (·.date_time)) = some hi ∧
      regroup w g = (binRange w (bucket w lo) (bucket w hi)).map
        (fun b => (b, g.filter (fun r => bucket w r.date_time == b))) := by
  cases g with
  | nil => exact absurd rfl hg
  | cons r0 g' =>
      refine ⟨_, _, rfl, rfl, ?_⟩
      unfold regroup
      rfl

theorem regroup_pair_mem {w : Nat} {g : List WRow} {b : Nat} (hw : 0 < w)
    (hmod : ∀ r ∈ g, r.date_time % w = 0)
    (hex : ∃ r ∈ g, r.date_time = b) :
    (b, g.filter (fun r => bucket w r.date_time == b)) ∈ regroup w g := by
  obtain ⟨rb, hrb, hrbdt⟩ := hex
  obtain ⟨lo, hi, hlo, hhi, hre⟩ :=
    regroup_eq_of_ne_nil (w := w) (List.ne_nil_of_mem hrb)
  have hlos := natMin?_spec hlo
  have hhis := natMax?_spec hhi
  have hlomod : lo % w = 0 := by
    obtain ⟨r', hr', hdt⟩ := List.mem_map.mp hlos.1
    rw [← hdt]
    exact hmod r' hr'
  have hbmod : b % w = 0 := by rw [← hrbdt]; exact hmod rb hrb
  have hbdts : b ∈ g.map (·.date_time) := by
    rw [← hrbdt]
    exact List.mem_map_of_mem _ hrb
  have hhimod : hi % w = 0 := by
    obtain ⟨r', hr', hdt⟩ := List.mem_map.mp hhis.1
    rw [← hdt]
    exact hmod r' hr'
  rw [hre]
  have hbmem : b ∈ binRange w (bucket w lo) (bucket w hi) := by
    rw [bucket_eq_of_mod hlomod, bucket_eq_of_mod hhimod]
    exact mem_binRange hw hlomod hbmod (hlos.2 b hbdts) (hhis.2 b hbdts)
  exact List.mem_map.mpr ⟨b, hbmem, rfl⟩

theorem regroup_lookup {w : Nat} {g : List WRow} {b : Nat} (hw : 0 < w)
    (hmod : ∀ r ∈ g, r.date_time % w = 0)
    (hex : ∃ r ∈ g, r.date_time = b) :
    (regroup w g).lookup b =
      some (g.filter (fun r => bucket w r.date_time == b)) := by
  obtain ⟨rb, hrb, hrbdt⟩ := hex
  obtain ⟨lo, hi, hlo, hhi, hre⟩ :=
    regroup_eq_of_ne_nil (w := w) (List.ne_nil_of_mem hrb)
  have hlos := natMin?_spec hlo
  have hhis := natMax?_spec hhi
  have hlomod : lo % w = 0 := by
    obtain ⟨r', hr', hdt⟩ := List.mem_map.mp hlos.1
    rw [← hdt]
    exact hmod r' hr'
  have hbmod : b % w = 0 := by rw [← hrbdt]; exact hmod rb hrb
  have hbdts : b ∈ g.map (·.date_time) := by
    rw [← hrbdt]
    exact List.mem_map_of_mem _ hrb
  have hhimod : hi % w = 0 := by
    obtain ⟨r', hr', hdt⟩ := List.mem_map.mp hhis.1
    rw [← hdt]
    exact hmod r' hr'
  have hbmem : b ∈ binRange w (bucket w lo) (bucket w hi) := by
    rw [bucket_eq_of_mod hlomod, bucket_eq_of_mod hhimod]
    exact mem_binRange hw hlomod hbmod (hlos.2 b hbdts) (hhis.2 b hbdts)
  rw [hre]
  exact lookup_keyed_map (fun k => g.filter (fun r => bucket w r.date_time == k)) hbmem

theorem window_flat_ne_nil {f : EventFrame} {w : Nat} {m : List (Nat × List WRow)}
    (hw : 0 < w) (h : (window_by_datetime f w).1 = .ok m) :
    m.flatMap (fun p => p.2) ≠ [] := by
  obtain ⟨hm, hne⟩ := window_ok h
  set g := groupedRows f.rows w with hg
  have hgne : g ≠ [] := by
    intro hnil
    apply hne
    rw [hm, hnil]
    rfl
  obtain ⟨r0, hr0⟩ := List.exists_mem_of_ne_nil g hgne
  have hpair := regroup_pair_mem (b := r0.date_time) hw
    (fun r hr => groupedRows_mod (hg ▸ hr)) ⟨r0, hr0, rfl⟩
  have hr0filter : r0 ∈ g.filter (fun r => bucket w r.date_time == r0.date_time) := by
    refine List.mem_filter.mpr ⟨hr0, ?_⟩
    rw [beq_iff_eq]
    exact bucket_eq_of_mod (groupedRows_mod (hg ▸ hr0))
  apply List.ne_nil_of_mem (a := r0)
  refine List.mem_flatMap.mpr ⟨(r0.date_time, g.filter (fun r => bucket w r.date_time == r0.date_time)), ?_, hr0filter⟩
  rw [hm]
  exact hpair

/- Claim theorems. -/

/-- Claim C6: three events for order A1 at 08:00 (480), 08:30 (510) and
09:15 (555) with a one-hour (60) window produce exactly two buckets, the
08:00 bucket holding the 08:30 event (the last of 08:00 and 08:30) and
the 09:00 (540) bucket holding the 09:15 event. -/
theorem c6_scenario_two_buckets :
    (window_by_datetime ⟨false, false,
      [⟨"A1", 480, "received", 10, "Tina", [("wheel", 1)]⟩,
       ⟨"A1", 510, "in progress", 20, "Tina", []⟩,
       ⟨"A1", 555, "completed", 30, "Tina", []⟩]⟩ 60).1 =
    .ok [(480, [toSomeRow 480 ⟨"A1", 510, "in progress", 20, "Tina", []⟩]),
         (540, [toSomeRow 540 ⟨"A1", 555, "completed", 30, "Tina", []⟩])] := by
  rfl

/-- Claim C1, counterexample: an entity with events only at 0 and 120
and a window of 60 has no event in the bucket starting at 60, yet the
mapping stores a (null-filled) row under the key 60 — the resampling
step fills every intermediate bucket, refuting the claim that an empty
bucket produces no row. -/
theorem c1_counterexample_null_row :
    ((window_by_datetime ⟨false, false,
        [⟨"A", 0, "received", 1, "Tom", []⟩,
         ⟨"A", 120, "completed", 2, "Tom", []⟩]⟩ 60).1 =
      .ok [(0, [toSomeRow 0 ⟨"A", 0, "received", 1, "Tom", []⟩]),
           (60, [nullRow 60]),
           (120, [toSomeRow 120 ⟨"A", 120, "completed", 2, "Tom", []⟩])]) ∧
    (∀ e ∈ [(⟨"A", 0, "received", 1, "Tom", []⟩ : Event),
            ⟨"A", 120, "completed", 2, "Tom", []⟩],
      bucket 60 e.date_time ≠ 60) := by
  exact ⟨rfl, by decide⟩

/-- Claim C2, failing input: a document whose first event has a part
element lacking the name attribute and whose second event is fully
valid.  The attribute lookup raises KeyError, which the per-event
handler (catching only AttributeError and ValueError) does not catch,
so the whole batch aborts and the valid second event is lost — refuting
the claim that a malformed part entry discards only its own event. -/
theorem c2_part_keyerror_aborts_batch :
    parse_xml [Document.parsed
      [⟨some (some "O1"), some (some 5), some (some "ok"), some (some "7"),
        some (some "Tech"), [⟨none, some "1"⟩]⟩,
       ⟨some (some "O2"), some (some 6), some (some "ok"), some (some "7"),
        some (some "Tech"), []⟩]] =
    .error (.keyError "name") := by
  rfl

/-- Claim C7, failing input: on an empty input mapping process_to_RO
does not raise the empty-result ValueError; building that message
interpolates the loop variable window, never bound when the loop body
never ran, so a NameError escapes instead. -/
theorem c7_empty_mapping_nameerror :
    process_to_RO [] = .error (.nameError "name window is not defined") := by
  rfl

/-- Claim C7, second half of the divergence: a non-empty mapping whose
groups are all empty does reach the intended empty-result ValueError,
because the loop bound the variable window. -/
theorem c7_zero_rows_valueerror :
    process_to_RO [(0, [])] =
      .error (.valueError "No valid repair orders found for window") := by
  rfl

/-- Claim C8, counterexample: window_by_datetime does not leave its
input frame unchanged — after the call the frame of this concrete run
has its date_time column converted and moved into the index. -/
theorem c8_counterexample_mutates_frame :
    (window_by_datetime ⟨false, false, [⟨"A", 0, "received", 1, "Tom", []⟩]⟩ 60).2 ≠
      ⟨false, false, [⟨"A", 0, "received", 1, "Tom", []⟩]⟩ := by
  decide

/-- window_by_datetime called on the already-mutated frame does not
return a mapping at all: reading the date_time column after set_index
removed it raises KeyError, re-raised by the handler, and the frame is
left as it was. -/
theorem window_by_datetime_indexed_keyerror (f : EventFrame) (w : Nat)
    (h : f.dateTimeIndexed = true) :
    window_by_datetime f w = (.error (.keyError "date_time"), f) := by
  simp [window_by_datetime, h]

/-- Claim C8, amended: window_by_datetime does mutate its input table —
called on a fresh frame it rewrites the date_time column and reassigns
it as the index in place, so the caller sees the converted, indexed
frame afterwards — but that is the only side effect: the event rows
themselves are unchanged by every call. -/
theorem c8_amended_mutation_only_flags (f : EventFrame) (w : Nat) :
    (window_by_datetime f w).2.rows = f.rows ∧
    (f.dateTimeIndexed = false → (window_by_datetime f w).2 = ⟨true, true, f.rows⟩) := by
  by_cases h : f.dateTimeIndexed
  · refine ⟨by simp [window_by_datetime, h], ?_⟩
    intro hc
    rw [h] at hc
    cases hc
  · exact ⟨by simp [window_by_datetime, h], fun _ => by simp [window_by_datetime, h]⟩

/-- Claim C8, amended theorem instantiated at a fresh one-event frame. -/
theorem c8_amended_mutation_only_flags_witness :
    (window_by_datetime ⟨false, false, [⟨"A", 0, "received", 1, "Tom", []⟩]⟩ 60).2.rows =
      [⟨"A", 0, "received", 1, "Tom", []⟩] ∧
    (window_by_datetime ⟨false, false, [⟨"A", 0, "received", 1, "Tom", []⟩]⟩ 60).2 =
      ⟨true, true, [⟨"A", 0, "received", 1, "Tom", []⟩]⟩ :=
  ⟨(c8_amended_mutation_only_flags
      ⟨false, false, [⟨"A", 0, "received", 1, "Tom", []⟩]⟩ 60).1,
   (c8_amended_mutation_only_flags
      ⟨false, false, [⟨"A", 0, "received", 1, "Tom", []⟩]⟩ 60).2 rfl⟩

/-- Claim C9: every row filed under key b in the mapping returned by
window_by_datetime has date_time equal to b — the regrouping step never
moves a resampled row into a different bucket. -/
theorem c9_rows_match_their_key (f : EventFrame) (w : Nat)
    (m : List (Nat × List WRow)) (b : Nat) (g : List WRow) (r : WRow)
    (hok : (window_by_datetime f w).1 = .ok m) (hm : (b, g) ∈ m) (hr : r ∈ g) :
    r.date_time = b := by
  obtain ⟨hmeq, _⟩ := window_ok hok
  rw [hmeq] at hm
  rw [mem_regroup_eq hm] at hr
  have hf := List.mem_filter.mp hr
  have hb : bucket w r.date_time = b := beq_iff_eq.mp hf.2
  rw [← hb]
  exact (bucket_eq_of_mod (groupedRows_mod hf.1)).symm

/-- Claim C9, witness instantiation at a one-event run. -/
theorem c9_rows_match_their_key_witness :
    (toSomeRow 0 ⟨"A", 0, "received", 1, "Tom", []⟩).date_time = 0 :=
  c9_rows_match_their_key ⟨false, false, [⟨"A", 0, "received", 1, "Tom", []⟩]⟩ 60
    [(0, [toSomeRow 0 ⟨"A", 0, "received", 1, "Tom", []⟩])] 0
    [toSomeRow 0 ⟨"A", 0, "received", 1, "Tom", []⟩]
    (toSomeRow 0 ⟨"A", 0, "received", 1, "Tom", []⟩)
    rfl (List.mem_singleton.mpr rfl) (List.mem_singleton.mpr rfl)

/-- Claim C1, amended: a row of the output that carries an order_id
exists for an (entity, bucket) pair only if some input event of that
entity falls in that bucket; however (see the counterexample) empty
buckets between the first and last populated bucket of an entity do
produce all-null rows carrying no order_id. -/
theorem c1_amended_some_rows_need_event (f : EventFrame) (w : Nat)
    (m : List (Nat × List WRow)) (b : Nat) (g : List WRow) (r : WRow) (n : String)
    (hok : (window_by_datetime f w).1 = .ok m) (hm : (b, g) ∈ m) (hr : r ∈ g)
    (hn : r.order_id = some n) :
    ∃ e ∈ f.rows, e.order_id = n ∧ bucket w e.date_time = b := by
  obtain ⟨hmeq, _⟩ := window_ok hok
  rw [hmeq] at hm
  rw [mem_regroup_eq hm] at hr
  have hf := List.mem_filter.mp hr
  have hrb : bucket w r.date_time = b := beq_iff_eq.mp hf.2
  have hrdt : r.date_time = b := by
    rw [← hrb]
    exact (bucket_eq_of_mod (groupedRows_mod hf.1)).symm
  obtain ⟨n', _, hres⟩ := mem_groupedRows hf.1
  obtain ⟨_, hbin⟩ := mem_resampleEntity hres
  rw [hbin, hrdt] at hn
  obtain ⟨e, hes, heb, hen, _⟩ := binLast_order_id_some hn
  have he := mem_entityRows.mp (mem_sortByTime.mp hes)
  exact ⟨e, he.1, hen, heb⟩

/-- Claim C1, amended theorem instantiated at a one-event run. -/
theorem c1_amended_some_rows_need_event_witness :
    ∃ e ∈ [(⟨"A", 0, "received", 1, "Tom", []⟩ : Event)],
      e.order_id = "A" ∧ bucket 60 e.date_time = 0 :=
  c1_amended_some_rows_need_event ⟨false, false, [⟨"A", 0, "received", 1, "Tom", []⟩]⟩ 60
    [(0, [toSomeRow 0 ⟨"A", 0, "received", 1, "Tom", []⟩])] 0
    [toSomeRow 0 ⟨"A", 0, "received", 1, "Tom", []⟩]
    (toSomeRow 0 ⟨"A", 0, "received", 1, "Tom", []⟩) "A"
    rfl (List.mem_singleton.mpr rfl) (List.mem_singleton.mpr rfl) rfl

/-- Claim C3: applied to an (always non-empty) output of the Windower,
process_to_RO succeeds and returns exactly one RO per windowed row — the
rows flattened in window order then row order — with the same total row
count and every field copied unchanged. -/
theorem c3_round_trip (f : EventFrame) (w : Nat) (hw : 0 < w)
    (m : List (Nat × List WRow)) (hok : (window_by_datetime f w).1 = .ok m) :
    process_to_RO m = .ok ((m.flatMap (fun p => p.2)).map mkRO) ∧
    ((m.flatMap (fun p => p.2)).map mkRO).length = (m.flatMap (fun p => p.2)).length ∧
    ∀ r ∈ m.flatMap (fun p => p.2),
      mkRO r = ⟨r.order_id, r.date_time, r.status, r.cost, r.technician, r.parts⟩ := by
  have hflat := window_flat_ne_nil hw hok
  refine ⟨?_, List.length_map _ _, fun r _ => rfl⟩
  obtain ⟨x, xs, hxs⟩ := List.exists_cons_of_ne_nil hflat
  simp only [process_to_RO]
  rw [hxs]
  rfl

/-- Claim C3 instantiated at a one-event run. -/
theorem c3_round_trip_witness :
    process_to_RO [(0, [toSomeRow 0 ⟨"A", 0, "received", 1, "Tom", []⟩])] =
      .ok [mkRO (toSomeRow 0 ⟨"A", 0, "received", 1, "Tom", []⟩)] :=
  (c3_round_trip ⟨false, false, [⟨"A", 0, "received", 1, "Tom", []⟩]⟩ 60 (by decide)
    [(0, [toSomeRow 0 ⟨"A", 0, "received", 1, "Tom", []⟩])] rfl).1

/-- Claim C5: when two events of one entity share an identical timestamp
inside one bucket and that shared timestamp is the latest in the bucket
(the tie is for last), the windowed row selected for that bucket is the
event appearing later in the input sequence: the last event in input
order among those at the maximal timestamp, whatever the input position
of the bucket's other, earlier-stamped events. -/
theorem c5_later_event_wins (f : EventFrame) (w : Nat) (hw : 0 < w)
    (n : String) (b : Nat) (e1 e2 : Event) (m : List (Nat × List WRow))
    (hok : (window_by_datetime f w).1 = .ok m)
    (h1 : e1 ∈ bucketEvents f.rows w n b)
    (htie : e1.date_time = e2.date_time)
    (h2 : ((bucketEvents f.rows w n b).filter
        (fun e => e.date_time == e2.date_time)).getLast? = some e2)
    (hmax : ∀ e ∈ bucketEvents f.rows w n b, e.date_time ≤ e2.date_time) :
    rowFor m n b = some (toSomeRow b e2) := by
  have he2mem : e2 ∈ bucketEvents f.rows w n b :=
    (List.mem_filter.mp (getLast?_mem' h2)).1
  have he2f := List.mem_filter.mp he2mem
  obtain ⟨hbb, hoid⟩ : (bucket w e2.date_time == b) = true ∧ (e2.order_id == n) = true := by
    simpa using he2f.2
  have he2b : bucket w e2.date_time = b := beq_iff_eq.mp hbb
  have he2n : e2.order_id = n := beq_iff_eq.mp hoid
  have hbmod : b % w = 0 := by
    rw [← he2b]
    exact bucket_mod w e2.date_time
  have he2ent : e2 ∈ entityRows f.rows n := mem_entityRows.mpr ⟨he2f.1, he2n⟩
  have hfilter : (sortByTime (entityRows f.rows n)).filter
      (fun e => bucket w e.date_time == b) = sortByTime (bucketEvents f.rows w n b) := by
    rw [filter_sortByTime]
    congr 1
    unfold entityRows bucketEvents
    rw [List.filter_filter]
  have hbin : binLast w b (sortByTime (entityRows f.rows n)) = toSomeRow b e2 := by
    rw [binLast, hfilter, getLast?_sortByTime_ties h2 hmax]
  have hrows : binLast w b (sortByTime (entityRows f.rows n))
      ∈ resampleEntity w (entityRows f.rows n) := by
    have hr := resample_mem_of_bucket (w := w) hw he2ent
    rw [he2b] at hr
    exact hr
  have hgr : toSomeRow b e2 ∈ groupedRows f.rows w := by
    rw [← hbin]
    refine List.mem_flatMap.mpr ⟨n, ?_, hrows⟩
    have hne := mem_entities he2f.1
    rw [he2n] at hne
    exact hne
  obtain ⟨hmeq, _⟩ := window_ok hok
  have hmod : ∀ r ∈ groupedRows f.rows w, r.date_time % w = 0 :=
    fun r hr => groupedRows_mod hr
  have hlook : m.lookup b = some ((groupedRows f.rows w).filter
      (fun r => bucket w r.date_time == b)) := by
    rw [hmeq]
    exact regroup_lookup hw hmod ⟨toSomeRow b e2, hgr, rfl⟩
  unfold rowFor
  rw [hlook]
  show ((groupedRows f.rows w).filter (fun r => bucket w r.date_time == b)).find?
      (fun r => r.order_id == some n) = some (toSomeRow b e2)
  refine find?_unique ?_ ?_ ?_
  · refine List.mem_filter.mpr ⟨hgr, ?_⟩
    rw [beq_iff_eq]
    exact bucket_eq_of_mod hbmod
  · rw [beq_iff_eq]
    show (some e2.order_id : Option String) = some n
    rw [he2n]
  · intro y hy hyn
    have hyf := List.mem_filter.mp hy
    have hyb : bucket w y.date_time = b := beq_iff_eq.mp hyf.2
    have hydt : y.date_time = b := by
      rw [← hyb]
      exact (bucket_eq_of_mod (groupedRows_mod hyf.1)).symm
    obtain ⟨n', hn', hres⟩ := mem_groupedRows hyf.1
    obtain ⟨_, hybin⟩ := mem_resampleEntity hres
    have hyoid : y.order_id = some n := beq_iff_eq.mp hyn
    rw [hybin, hydt] at hyoid
    obtain ⟨e', hes', _, hen', _⟩ := binLast_order_id_some hyoid
    have he'ent := mem_entityRows.mp (mem_sortByTime.mp hes')
    have hn'n : n' = n := by
      rw [← he'ent.2, hen']
    subst hn'n
    rw [hybin, hydt]
    exact hbin

/-- Claim C5 instantiated: two events of entity A share timestamp 10 in
the bucket starting at 0 of a 60-minute grid, and a third bucket event
with the earlier timestamp 5 comes last in the input; the later input
event of the tied pair (the second one) still becomes the windowed row. -/
theorem c5_later_event_wins_witness :
    rowFor [(0, [toSomeRow 0 ⟨"A", 10, "second", 2, "Tom", []⟩])] "A" 0 =
      some (toSomeRow 0 ⟨"A", 10, "second", 2, "Tom", []⟩) :=
  c5_later_event_wins ⟨false, false,
      [⟨"A", 10, "first", 1, "Tom", []⟩, ⟨"A", 10, "second", 2, "Tom", []⟩,
       ⟨"A", 5, "early", 3, "Tom", []⟩]⟩ 60
    (by decide) "A" 0
    ⟨"A", 10, "first", 1, "Tom", []⟩ ⟨"A", 10, "second", 2, "Tom", []⟩
    [(0, [toSomeRow 0 ⟨"A", 10, "second", 2, "Tom", []⟩])]
    rfl (by decide) rfl (by decide) (by decide)

theorem collectEvents_ok : ∀ {evs : List EventNode} {l : List Event},
    collectEvents evs = .ok l → l = evs.filterMap okEvent?
  | [], l, h => by
      simp only [collectEvents] at h
      cases h
      rfl
  | n :: ns, l, h => by
      simp only [collectEvents] at h
      cases hx : extractEvent n with
      | ok e =>
          rw [hx] at h
          cases hns : collectEvents ns with
          | error err => rw [hns] at h; simp [Except.map] at h
          | ok l' =>
              rw [hns] at h
              simp only [Except.map, Except.ok.injEq] at h
              cases h
              rw [List.filterMap_cons]
              simp only [okEvent?, hx]
              rw [collectEvents_ok hns]
      | skip msg =>
          rw [hx] at h
          rw [List.filterMap_cons]
          simp only [okEvent?, hx]
          exact collectEvents_ok h
      | abort err =>
          rw [hx] at h
          exact absurd h (by simp)

theorem collectDocs_ok : ∀ {files : List Document} {l : List Event},
    collectDocs files = .ok l → l = specOrderedEvents files
  | [], l, h => by
      simp only [collectDocs] at h
      cases h
      rfl
  | .malformed :: ds, l, h => by
      simp only [collectDocs] at h
      rw [collectDocs_ok h]
      rfl
  | .parsed evs :: ds, l, h => by
      simp only [collectDocs] at h
      cases hev : collectEvents evs with
      | error err => rw [hev] at h; exact absurd h (by simp)
      | ok l1 =>
          rw [hev] at h
          cases hds : collectDocs ds with
          | error err => rw [hds] at h; exact absurd h (by simp)
          | ok l2 =>
              rw [hds] at h
              simp only [Except.ok.injEq] at h
              cases h
              rw [collectEvents_ok hev, collectDocs_ok hds]
              rfl

/-- Claim C10: whenever parse_xml succeeds, the returned sequence is
exactly the valid events of the supplied documents, documents in supply
order and nodes within a document in traversal order; with the model a
pure function of its input, running it twice on the same documents
trivially yields this same sequence. -/
theorem c10_order_preserved (files : List Document) (l : List Event)
    (h : parse_xml files = .ok l) : l = specOrderedEvents files := by
  unfold parse_xml at h
  cases hcd : collectDocs files with
  | error err => rw [hcd] at h; exact absurd h (by simp)
  | ok data =>
      rw [hcd] at h
      cases data with
      | nil => simp at h
      | cons x xs =>
          simp only [Except.ok.injEq] at h
          cases h
          exact collectDocs_ok hcd

/-- Claim C10 instantiated at a one-document batch. -/
theorem c10_order_preserved_witness :
    [(⟨"A", 0, "received", 7, "Tom", []⟩ : Event)] =
      specOrderedEvents [Document.parsed
        [⟨some (some "A"), some (some 0), some (some "received"),
          some (some "7"), some (some "Tom"), []⟩]] :=
  c10_order_preserved
    [Document.parsed
      [⟨some (some "A"), some (some 0), some (some "received"),
        some (some "7"), some (some "Tom"), []⟩]]
    [⟨"A", 0, "received", 7, "Tom", []⟩] rfl

/-- Claim C4, counterexample: with zero files found, the FileNotFoundError
raised by the directory read is caught by the top-level handler of
pipeline and only logged; the run returns normally (the loggedError
outcome), so the error is swallowed rather than surfaced to the caller. -/
theorem c4_counterexample_error_swallowed :
    pipeline [] 60 true =
      .loggedError (.fileNotFound "No XML files found in the directory.") := by
  rfl

/-- Claim C4, amended: each batch-level failure does raise a distinct,
named exception kind inside the run (FileNotFoundError for zero files,
ValueError for the zero-valid-events case, DatabaseError for a
persistence failure), but pipeline catches all of them at its top level
and logs them: the caller always receives a normal return carrying no
exception. -/
theorem c4_amended_distinct_kinds_logged (files : List Document) (w : Nat) (dbOk : Bool) :
    (files.isEmpty = true →
      pipeline files w dbOk =
        .loggedError (.fileNotFound "No XML files found in the directory.")) ∧
    (files.isEmpty = false → collectDocs files = .ok [] →
      pipeline files w dbOk =
        .loggedError (.valueError "No valid event data found in XML files.")) ∧
    (∀ ros, pipeline files w true = .completed ros →
      pipeline files w false = .loggedError (.databaseError "database error")) := by
  refine ⟨?_, ?_, ?_⟩
  · intro h
    simp [pipeline, h]
  · intro h hcd
    have hp : parse_xml files =
        .error (.valueError "No valid event data found in XML files.") := by
      unfold parse_xml
      rw [hcd]
    simp [pipeline, h, hp]
  · intro ros
    unfold pipeline
    split
    · intro h
      exact absurd h (by simp)
    · split
      · intro h
        exact absurd h (by simp)
      · split
        · intro h
          exact absurd h (by simp)
        · split
          · intro h
            exact absurd h (by simp)
          · split
            · intro h
              exact absurd h (by simp)
            · split
              · intro h
                exact absurd h (by simp)
              · split
                · intro h
                  exact absurd h (by simp)
                · intro h
                  rfl

/-- Claim C4, amended theorem instantiated at the three failure kinds. -/
theorem c4_amended_distinct_kinds_logged_witness :
    pipeline [] 60 true =
      .loggedError (.fileNotFound "No XML files found in the directory.") ∧
    pipeline [Document.malformed] 60 true =
      .loggedError (.valueError "No valid event data found in XML files.") ∧
    pipeline [Document.parsed
        [⟨some (some "A"), some (some 0), some (some "received"),
          some (some "7"), some (some "Tom"), []⟩]] 60 false =
      .loggedError (.databaseError "database error") :=
  ⟨(c4_amended_distinct_kinds_logged [] 60 true).1 rfl,
   (c4_amended_distinct_kinds_logged [Document.malformed] 60 true).2.1 rfl rfl,
   (c4_amended_distinct_kinds_logged
      [Document.parsed
        [⟨some (some "A"), some (some 0), some (some "received"),
          some (some "7"), some (some "Tom"), []⟩]] 60 false).2.2
     [mkRO (toSomeRow 0 ⟨"A", 0, "received", 7, "Tom", []⟩)] rfl⟩
